import Mathlib

/-!
Shallow embedding of `books_parser.py` (a paginated catalogue scraper).

Python dictionaries are modelled as association lists in insertion order
(`Record`), pure field parsers (`parse_price`, `parse_rating`) are modelled
directly over strings and class lists, the retrying page fetcher `get_soup`
is modelled over an oracle giving the outcome of each attempt, and the
crawl loop `scrape` is modelled with explicit fuel over an abstract site
(list-page soups and detail-extraction outcomes keyed by URL).
-/

namespace Books

/-- A Python value stored in a record: string, float (as `ℚ`), int, or `None`. -/
inductive Val where
  | vs (s : String)
  | vq (q : ℚ)
  | vi (n : Int)
  | vnone
deriving DecidableEq, Repr

/-- A Python dict in insertion order: association list with unique keys
when built by the code below. -/
abbrev Record := List (String × Val)

/-- `d[k] = v` on a dict: replace the value in place if the key exists,
otherwise append the key at the end (Python dict assignment). -/
def setKey (d : Record) (k : String) (v : Val) : Record :=
  if d.any (fun p => p.1 = k) then
    d.map (fun p => if p.1 = k then (k, v) else p)
  else d ++ [(k, v)]

/-- `d.update(e)`: assign every key of `e` into `d` in order (Python
`dict.update`). -/
def dictUpdate (d e : Record) : Record :=
  e.foldl (fun acc p => setKey acc p.1 p.2) d

/-- Read a string-valued key, defaulting to `""` (used for `it["product_url"]`,
which the list extractor always populates). -/
def getStr (r : Record) (k : String) : String :=
  match List.lookup k r with
  | some (.vs s) => s
  | _ => ""

/-! ### Field parsers -/

/-- `text.replace(",", ".")` — every comma becomes a period. -/
def commaToDot (c : Char) : Char :=
  if c = ',' then '.' else c

/-- The comma-to-period normalisation applied by `parse_price`. -/
def pyReplaceCommaDot (s : String) : String :=
  String.mk (s.data.map commaToDot)

/-- Match of the regex `[0-9]+(?:\.[0-9]+)?` anchored at the head of `cs`:
a maximal digit run, then optionally a period followed by a maximal
nonempty digit run. -/
def matchNumAt (cs : List Char) : Option (List Char) :=
  let ds := cs.takeWhile Char.isDigit
  if ds.isEmpty then none
  else
    match cs.dropWhile Char.isDigit with
    | '.' :: rest =>
      let fs := rest.takeWhile Char.isDigit
      if fs.isEmpty then some ds else some (ds ++ '.' :: fs)
    | _ => some ds

/-- Leftmost match of `[0-9]+(?:\.[0-9]+)?` (Python `re.search`): try each
start position left to right; a match starts at the first digit. -/
def firstNumToken : List Char → Option (List Char)
  | [] => none
  | c :: cs => if c.isDigit then matchNumAt (c :: cs) else firstNumToken cs

/-- Decimal value of a digit run. -/
def digitsToNat (ds : List Char) : Nat :=
  ds.foldl (fun n c => 10 * n + (c.toNat - '0'.toNat)) 0

/-- `float(token)` for a matched token `digits` or `digits.digits`. -/
def tokenToQ (t : List Char) : ℚ :=
  let ip := t.takeWhile Char.isDigit
  match t.dropWhile Char.isDigit with
  | '.' :: fp => (digitsToNat ip : ℚ) + (digitsToNat fp : ℚ) / (10 : ℚ) ^ fp.length
  | _ => (digitsToNat ip : ℚ)

/-- `parse_price`: `None` on empty text, else the first numeric token of the
comma-normalised text as a float, or `None` when no token occurs. -/
def parse_price (text : String) : Option ℚ :=
  if text = "" then none
  else (firstNumToken (pyReplaceCommaDot text).data).map tokenToQ

/-- The closed rating dictionary `{"One": 1, ..., "Five": 5}`. -/
def ratingMap (cls : String) : Option Int :=
  if cls = "One" then some 1
  else if cls = "Two" then some 2
  else if cls = "Three" then some 3
  else if cls = "Four" then some 4
  else if cls = "Five" then some 5
  else none

/-- The `for cls in tag.get("class", [])` loop: first class found in the
rating dictionary wins. -/
def findRating : List String → Option Int
  | [] => none
  | cls :: rest =>
    match ratingMap cls with
    | some n => some n
    | none => findRating rest

/-- `parse_rating`: `None` for an absent tag, else scan the tag's class list
for the first recognised rank token. -/
def parse_rating (tag : Option (List String)) : Option Int :=
  match tag with
  | none => none
  | some classes => findRating classes

/-- `s.split()`: the maximal whitespace-free words of `s`, dropping empty
runs (`acc` holds the current word reversed). -/
def wordsGo : List Char → List Char → List (List Char)
  | [], acc => if acc.isEmpty then [] else [acc.reverse]
  | c :: cs, acc =>
    if c.isWhitespace then
      if acc.isEmpty then wordsGo cs [] else acc.reverse :: wordsGo cs []
    else wordsGo cs (c :: acc)

/-- `" ".join(s.split())`: collapse whitespace runs to single spaces. -/
def normSpaces (s : String) : String :=
  String.mk (List.intercalate [' '] (wordsGo s.data []))

/-! ### Page fetcher `get_soup` -/

/-- What one GET attempt produces: a response with a status code and body,
or a raised transport exception (`requests.RequestException` during the call). -/
inductive AttemptOutcome where
  | status (code : Nat) (body : String)
  | transportError (msg : String)
deriving DecidableEq, Repr

/-- The exception recorded in `last_exc`: a transport exception, or the
`HTTPError` raised by `raise_for_status()` for a given status code. -/
inductive FetchErr where
  | transport (msg : String)
  | httpStatus (code : Nat)
deriving DecidableEq, Repr

/-- Outcome of `get_soup`: a parsed document, or the final
`RuntimeError(f"Failed to load {url}: {last_exc}")` carrying `last_exc`
(which is `None` when no attempt raised). -/
inductive FetchResult where
  | doc (body : String)
  | exhausted (lastExc : Option FetchErr)
deriving DecidableEq, Repr

/-- Observable trace of one `get_soup` call: its outcome, the number of GET
requests issued, and the list of sleep durations performed. -/
structure FetchTrace where
  result : FetchResult
  attempts : Nat
  sleeps : List Nat
deriving DecidableEq, Repr

/-- `backoff_sleep(attempt)` sleeps `min(2 ** attempt, 10)` seconds. -/
def backoffDuration (attempt : Nat) : Nat :=
  min (2 ^ attempt) 10

/-- The retry loop of `get_soup`, one equation per iteration of
`for attempt in range(max_retries)`; `responses` gives the outcome of the
GET issued on each attempt index. Status 429 and 5xx sleep and continue
without touching `last_exc`; any other status in 400..599 makes
`raise_for_status()` raise, which the `except requests.RequestException`
clause catches: it records the error, sleeps, and continues. -/
def get_soupGo (responses : Nat → AttemptOutcome) :
    Nat → Nat → Option FetchErr → List Nat → FetchTrace
  | 0, attempt, last, sleeps => ⟨.exhausted last, attempt, sleeps⟩
  | rem + 1, attempt, last, sleeps =>
    match responses attempt with
    | .transportError e =>
      get_soupGo responses rem (attempt + 1) (some (.transport e))
        (sleeps ++ [backoffDuration attempt])
    | .status code body =>
      if code = 429 ∨ (500 ≤ code ∧ code < 600) then
        get_soupGo responses rem (attempt + 1) last (sleeps ++ [backoffDuration attempt])
      else if 400 ≤ code ∧ code < 600 then
        get_soupGo responses rem (attempt + 1) (some (.httpStatus code))
          (sleeps ++ [backoffDuration attempt])
      else ⟨.doc body, attempt + 1, sleeps⟩

/-- `get_soup(url, session, max_retries)`: run the retry loop from attempt 0
with no recorded exception. -/
def get_soup (responses : Nat → AttemptOutcome) (max_retries : Nat) : FetchTrace :=
  get_soupGo responses max_retries 0 none []

/-- An attempt that does not return a document: a transport exception, a
retryable status (429/5xx), or a status that `raise_for_status()` rejects. -/
def attemptFails : AttemptOutcome → Bool
  | .transportError _ => true
  | .status code _ => decide (code = 429 ∨ (400 ≤ code ∧ code < 600))

/-- The error an attempt stores into `last_exc`, if any: transport
exceptions always; statuses only when the raise branch runs (400..599 and
not retryable). -/
def recordedErr : AttemptOutcome → Option FetchErr
  | .transportError e => some (.transport e)
  | .status code _ =>
    if ¬(code = 429 ∨ (500 ≤ code ∧ code < 600)) ∧ (400 ≤ code ∧ code < 600) then
      some (.httpStatus code)
    else none

/-- Fold updating `last_exc` over one attempt. -/
def stepErr (acc : Option FetchErr) (o : AttemptOutcome) : Option FetchErr :=
  match recordedErr o with
  | some e => some e
  | none => acc

/-- The value of `last_exc` after attempts `attempt, ..., attempt + rem - 1`,
starting from `init`. -/
def foldErr (responses : Nat → AttemptOutcome) (attempt rem : Nat)
    (init : Option FetchErr) : Option FetchErr :=
  (List.range' attempt rem).foldl (fun acc a => stepErr acc (responses a)) init

/-! ### List-page extraction and the crawl loop -/

/-- The parts of one `article.product_pod` card that `parse_list_page`
queries: the `h3 a` anchor's `title` attribute, visible text and `href`,
and the text/classes of the price, rating and availability sub-elements
(`none` when the sub-element is absent). -/
structure Card where
  titleAttr : Option String
  linkText : String
  href : String
  priceText : Option String
  ratingClasses : Option (List String)
  availText : Option String
deriving DecidableEq, Repr

/-- The parts of a listing page's soup the code queries: its product cards
in document order and the `href` of the `li.next a` element, if present. -/
structure ListSoup where
  cards : List Card
  nextHref : Option String
deriving DecidableEq, Repr

/-- One item dict built by `parse_list_page` for a card; `uj` is
`urllib.parse.urljoin`, kept abstract (stdlib collaborator). Python's
`a.get("title") or a.get_text(strip=True)` treats an empty title attribute
as falsy. -/
def cardToRecord (uj : String → String → String) (base_url : String) (card : Card) : Record :=
  [("title", .vs (match card.titleAttr with
      | some t => if t = "" then card.linkText else t
      | none => card.linkText)),
   ("price", match parse_price (card.priceText.getD "") with
      | some q => .vq q
      | none => .vnone),
   ("rating", match parse_rating card.ratingClasses with
      | some n => .vi n
      | none => .vnone),
   ("availability", match card.availText with
      | some t => .vs (normSpaces t)
      | none => .vnone),
   ("product_url", .vs (uj base_url card.href))]

/-- `parse_list_page(soup, base_url)`: one record per card, document order. -/
def parse_list_page (uj : String → String → String) (soup : ListSoup)
    (base_url : String) : List Record :=
  soup.cards.map (cardToRecord uj base_url)

/-- `find_next_page(soup, current_url)`: resolve the `li.next a` href against
the current URL; `None` when the element is absent. -/
def find_next_page (uj : String → String → String) (soup : ListSoup)
    (current_url : String) : Option String :=
  soup.nextHref.map (fun h => uj current_url h)

/-- The abstract site the crawl runs against: the soup obtained for each
list-page URL, and the outcome of `parse_details(product_url, session)` —
its returned dict, or the message `str(e)` of the exception it raised. -/
structure Site where
  soup : String → ListSoup
  details : String → Except String Record

/-- The `try: it.update(parse_details(...)) except: it["details_error"] = str(e)`
body applied to one item. -/
def applyDetails (details : String → Except String Record) (it : Record) : Record :=
  match details (getStr it "product_url") with
  | .ok extra => dictUpdate it extra
  | .error e => setKey it "details_error" (.vs e)

/-- The records of one list page before detailing. -/
def pageItems (site : Site) (uj : String → String → String) (url : String) : List Record :=
  parse_list_page uj (site.soup url) url

/-- The records one loop iteration appends to `rows` for a page: the page's
items, each detailed when `--details` is on. -/
def processPage (site : Site) (uj : String → String → String) (wd : Bool)
    (url : String) : List Record :=
  if wd then (pageItems site uj url).map (applyDetails site.details)
  else pageItems site uj url

/-- Final orchestration state: accumulated `rows` and the `page` counter
(one increment per list page fetched). -/
structure CrawlResult where
  rows : List Record
  pagesFetched : Nat
deriving DecidableEq, Repr

/-- Python truthiness test `max_pages and page >= max_pages`. -/
def pythonLimitHit (mp : Option Int) (page : Nat) : Bool :=
  match mp with
  | none => false
  | some m => decide (m ≠ 0) && decide (m ≤ (page : Int))

/-- The `while url:` loop of `scrape`, with explicit fuel bounding the number
of iterations (the Python loop is unbounded; every claim proved below holds
for every fuel, or from a stated fuel on). Each iteration increments the
page counter, fetches and processes one list page, appends its items, then
breaks if the limit is hit, else advances to the next-page URL. -/
def scrapeLoop (site : Site) (uj : String → String → String) (wd : Bool)
    (mp : Option Int) : Nat → Option String → Nat → List Record → CrawlResult
  | _, none, page, rows => ⟨rows, page⟩
  | 0, some _, page, rows => ⟨rows, page⟩
  | fuel + 1, some url, page, rows =>
    if pythonLimitHit mp (page + 1) then
      ⟨rows ++ processPage site uj wd url, page + 1⟩
    else
      scrapeLoop site uj wd mp fuel (find_next_page uj (site.soup url) url)
        (page + 1) (rows ++ processPage site uj wd url)

/-- `scrape(start_url, max_pages, with_details)` up to the DataFrame build:
the loop from the start URL with `page = 0` and empty `rows`. -/
def scrape (site : Site) (uj : String → String → String) (wd : Bool)
    (mp : Option Int) (fuel : Nat) (start_url : String) : CrawlResult :=
  scrapeLoop site uj wd mp fuel (some start_url) 0 []

/-! ### Detail-page assembly (`parse_details`) -/

/-- One character of `.lower().replace(" ", "_")`: lower-case it, then turn
a space into an underscore (`Char.toLower ' ' = ' '`, and no other character
lower-cases to a space, so the two passes fuse per character). -/
def lowerThenUnderscore (c : Char) : Char :=
  if c.toLower = ' ' then '_' else c.toLower

/-- The attribute-table key normalisation in `parse_details`:
`th.get_text(strip=True).lower().replace(" ", "_")`. -/
def normKey (s : String) : String :=
  String.mk (s.data.map lowerThenUnderscore)

/-- The `for row in table.select("tr")` loop: each row with both a `th` and a
`td` assigns `details[normKey(th)] = td` into the `details` dict. -/
def buildDetailsTable (tableRows : List (Option String × Option String)) : Record :=
  tableRows.foldl
    (fun d cells =>
      match cells with
      | (some th, some td) => setKey d (normKey th) (.vs td)
      | _ => d)
    []

/-- The dict `parse_details` returns:
`{"category": ..., "description": ..., "image_url": ..., **details}` — the
three fixed keys first, then the table entries, table entries overwriting
a fixed key they collide with. -/
def parse_detailsDict (category description image_url : Val)
    (tableRows : List (Option String × Option String)) : Record :=
  dictUpdate
    [("category", category), ("description", description), ("image_url", image_url)]
    (buildDetailsTable tableRows)

/-! ### Result assembly and export decision -/

/-- The dedup key: the record's `product_url` value. -/
def dedupKey (r : Record) : Option Val :=
  List.lookup "product_url" r

/-- `df.drop_duplicates(subset=["product_url"])` with pandas' default
`keep="first"`: drop a row whose key was already seen. -/
def dedupGo (seen : List (Option Val)) : List Record → List Record
  | [] => []
  | r :: rs =>
    if dedupKey r ∈ seen then dedupGo seen rs
    else r :: dedupGo (dedupKey r :: seen) rs

/-- The Result Assembler's deduplication over the accumulated rows. -/
def dedupByUrl (rows : List Record) : List Record :=
  dedupGo [] rows

/-- The rows of the DataFrame `scrape` returns: deduplicated when nonempty
(the `if not df.empty:` guard). -/
def scrapeDF (site : Site) (uj : String → String → String) (wd : Bool)
    (mp : Option Int) (fuel : Nat) (start_url : String) : List Record :=
  let rows := (scrape site uj wd mp fuel start_url).rows
  if rows.isEmpty then rows else dedupByUrl rows

/-- What `main` does after `scrape` returns: print the no-data message, or
write a CSV or Excel file depending on the output extension. -/
inductive ExportAction where
  | noData (msg : String)
  | writeCsv (path : String)
  | writeExcel (path : String)
deriving DecidableEq, Repr

/-- The export decision in `main`: `if df.empty: print("No data collected.");
return` and otherwise a write chosen by the extension of `--output`. -/
def mainAfterScrape (dfRows : List Record) (output : String) : ExportAction :=
  if dfRows.isEmpty then .noData "No data collected."
  else if output.toLower.endsWith ".csv" then .writeCsv output
  else .writeExcel output

/-! ## Helper lemmas for the field parsers -/

lemma commaToDot_isDigit (c : Char) : (commaToDot c).isDigit = c.isDigit := by
  unfold commaToDot
  split
  · rename_i h; subst h; rfl
  · rfl

lemma matchNumAt_cons_digit (c : Char) (rest : List Char) (h : c.isDigit = true) :
    ∃ t, matchNumAt (c :: rest) = some t := by
  simp only [matchNumAt, List.takeWhile_cons, h, if_true, List.isEmpty_cons,
    Bool.false_eq_true, if_false]
  split
  · split <;> exact ⟨_, rfl⟩
  · exact ⟨_, rfl⟩

lemma firstNumToken_eq_none_iff (cs : List Char) :
    firstNumToken cs = none ↔ ∀ c ∈ cs, c.isDigit = false := by
  induction cs with
  | nil => simp [firstNumToken]
  | cons c rest ih =>
    by_cases h : c.isDigit
    · simp only [firstNumToken, h, if_true]
      constructor
      · intro hm
        obtain ⟨t, ht⟩ := matchNumAt_cons_digit c rest h
        rw [ht] at hm
        exact absurd hm (by simp)
      · intro hall
        exact absurd (hall c (by simp)) (by simp [h])
    · have h' : c.isDigit = false := by simp_all
      simp [firstNumToken, h', ih, List.mem_cons]

lemma ratingMap_range (s : String) (n : Int) (h : ratingMap s = some n) :
    1 ≤ n ∧ n ≤ 5 := by
  unfold ratingMap at h
  split_ifs at h <;> simp_all <;> omega

lemma findRating_range (l : List String) (n : Int) (h : findRating l = some n) :
    1 ≤ n ∧ n ≤ 5 := by
  induction l with
  | nil => simp [findRating] at h
  | cons cls rest ih =>
    rw [findRating] at h
    cases hm : ratingMap cls with
    | some k =>
      rw [hm] at h
      simp only [Option.some.injEq] at h
      exact h ▸ ratingMap_range cls k hm
    | none =>
      rw [hm] at h
      exact ih h

/-- C6: `parse_price` is a pure function returning the first numeric token
`digits[.digits]` of the comma-normalised text; it returns `none` exactly
when the input is empty or contains no digit (hence no such token), and
`parse_price "19.99"`, `parse_price "19,99"` and `parse_price "£19.99"` all
equal 19.99. -/
theorem c6_parse_price :
    parse_price "19.99" = some (1999/100 : ℚ) ∧
    parse_price "19,99" = some (1999/100 : ℚ) ∧
    parse_price "£19.99" = some (1999/100 : ℚ) ∧
    parse_price "" = none ∧
    ∀ s : String, parse_price s = none ↔ (s = "" ∨ ∀ c ∈ s.data, c.isDigit = false) := by
  refine ⟨?_, ?_, ?_, rfl, ?_⟩
  · rw [show parse_price "19.99" = some ((19 : ℕ) + (99 : ℕ)/(10:ℚ)^(2:ℕ)) from rfl]; norm_num
  · rw [show parse_price "19,99" = some ((19 : ℕ) + (99 : ℕ)/(10:ℚ)^(2:ℕ)) from rfl]; norm_num
  · rw [show parse_price "£19.99" = some ((19 : ℕ) + (99 : ℕ)/(10:ℚ)^(2:ℕ)) from rfl]; norm_num
  · intro s
    by_cases hs : s = ""
    · subst hs; simp [parse_price]
    · simp only [parse_price, if_neg hs, Option.map_eq_none', firstNumToken_eq_none_iff]
      have hdata : (pyReplaceCommaDot s).data = s.data.map commaToDot := rfl
      rw [hdata]
      constructor
      · intro h
        right
        intro c hc
        have := h (commaToDot c) (List.mem_map.mpr ⟨c, hc, rfl⟩)
        rwa [commaToDot_isDigit] at this
      · rintro (h | h)
        · exact absurd h hs
        · intro c hc
          obtain ⟨a, ha, rfl⟩ := List.mem_map.mp hc
          rw [commaToDot_isDigit]
          exact h a ha

/-- C6 witness: the characterisation applied at a concrete digit-free input. -/
theorem c6_witness : parse_price "no digits here!" = none :=
  (c6_parse_price.2.2.2.2 "no digits here!").mpr (Or.inr (by decide))

/-- C7: `parse_rating` only ever returns an integer in {1,...,5} or `none`:
the case-sensitive tokens One..Five among the classes map to 1..5, an absent
tag yields `none`, and unrecognised tokens (including wrong-case ones)
yield `none`. -/
theorem c7_parse_rating_closure :
    (∀ (tag : Option (List String)) (n : Int), parse_rating tag = some n → 1 ≤ n ∧ n ≤ 5) ∧
    parse_rating none = none ∧
    parse_rating (some ["One"]) = some 1 ∧
    parse_rating (some ["Two"]) = some 2 ∧
    parse_rating (some ["Three"]) = some 3 ∧
    parse_rating (some ["Four"]) = some 4 ∧
    parse_rating (some ["Five"]) = some 5 ∧
    parse_rating (some ["one", "FIVE", "star-rating"]) = none := by
  refine ⟨?_, rfl, by decide, by decide, by decide, by decide, by decide, by decide⟩
  intro tag n h
  cases tag with
  | none => simp [parse_rating] at h
  | some classes => exact findRating_range classes n h

/-- C7 witness: the closure bound applied at a concrete class list. -/
theorem c7_witness : (1 : Int) ≤ 3 ∧ (3 : Int) ≤ 5 :=
  c7_parse_rating_closure.1 (some ["star-rating", "Three"]) 3 (by decide)

/-! ## Dictionary-update lemmas (for C10 and the detail merge) -/

lemma lookup_map_setKey_self (rest : Record) (k : String) (v : Val)
    (hany : rest.any (fun p => decide (p.1 = k)) = true) :
    List.lookup k (rest.map (fun p => if p.1 = k then (k, v) else p)) = some v := by
  induction rest with
  | nil => simp at hany
  | cons p rs ih =>
    obtain ⟨k1, v1⟩ := p
    simp only [List.map_cons]
    by_cases hp : k1 = k
    · subst hp
      rw [if_pos rfl, List.lookup_cons, beq_self_eq_true]
    · rw [if_neg hp, List.lookup_cons]
      have hne : (k == k1) = false := beq_eq_false_iff_ne.mpr (fun hh => hp hh.symm)
      rw [hne]
      apply ih
      simp only [List.any_cons, Bool.or_eq_true, decide_eq_true_eq] at hany
      rcases hany with hh | hh
      · exact absurd hh hp
      · exact hh

lemma lookup_append_single_self (d : Record) (k : String) (v : Val)
    (hany : d.any (fun p => decide (p.1 = k)) = false) :
    List.lookup k (d ++ [(k, v)]) = some v := by
  induction d with
  | nil =>
    simp only [List.nil_append]
    rw [List.lookup_cons, beq_self_eq_true]
  | cons p rs ih =>
    obtain ⟨k1, v1⟩ := p
    simp only [List.any_cons, Bool.or_eq_false_iff, decide_eq_false_iff_not] at hany
    obtain ⟨hk1, hrs⟩ := hany
    simp only [List.cons_append]
    rw [List.lookup_cons]
    have hne : (k == k1) = false := beq_eq_false_iff_ne.mpr (fun hh => hk1 hh.symm)
    rw [hne]
    exact ih hrs

lemma lookup_setKey_self (d : Record) (k : String) (v : Val) :
    List.lookup k (setKey d k v) = some v := by
  unfold setKey
  split
  · rename_i hany
    exact lookup_map_setKey_self d k v hany
  · rename_i hany
    exact lookup_append_single_self d k v (Bool.eq_false_iff.mpr hany)

lemma lookup_map_setKey_ne (rest : Record) (k k' : String) (v : Val) (h : k' ≠ k) :
    List.lookup k' (rest.map (fun p => if p.1 = k then (k, v) else p)) = List.lookup k' rest := by
  induction rest with
  | nil => rfl
  | cons p rs ih =>
    obtain ⟨k1, v1⟩ := p
    simp only [List.map_cons]
    by_cases hp : k1 = k
    · subst hp
      rw [if_pos rfl, List.lookup_cons, List.lookup_cons]
      have hne : (k' == k1) = false := beq_eq_false_iff_ne.mpr h
      rw [hne]
      exact ih
    · rw [if_neg hp, List.lookup_cons, List.lookup_cons]
      cases hkk : k' == k1
      · exact ih
      · rfl

lemma lookup_append_single_ne (d : Record) (k k' : String) (v : Val) (h : k' ≠ k) :
    List.lookup k' (d ++ [(k, v)]) = List.lookup k' d := by
  induction d with
  | nil =>
    simp only [List.nil_append]
    rw [List.lookup_cons]
    have hne : (k' == k) = false := beq_eq_false_iff_ne.mpr h
    rw [hne]
  | cons p rs ih =>
    obtain ⟨k1, v1⟩ := p
    simp only [List.cons_append]
    rw [List.lookup_cons, List.lookup_cons]
    cases hkk : k' == k1
    · exact ih
    · rfl

lemma lookup_setKey_ne (d : Record) (k k' : String) (v : Val) (h : k' ≠ k) :
    List.lookup k' (setKey d k v) = List.lookup k' d := by
  unfold setKey
  split
  · exact lookup_map_setKey_ne d k k' v h
  · exact lookup_append_single_ne d k k' v h

lemma lookup_dictUpdate_not_mem (d e : Record) (k : String)
    (h : k ∉ e.map Prod.fst) :
    List.lookup k (dictUpdate d e) = List.lookup k d := by
  induction e generalizing d with
  | nil => rfl
  | cons p rest ih =>
    obtain ⟨k1, v1⟩ := p
    simp only [List.map_cons, List.mem_cons] at h
    push_neg at h
    obtain ⟨hk1, hrest⟩ := h
    show List.lookup k (dictUpdate (setKey d k1 v1) rest) = _
    rw [ih (setKey d k1 v1) hrest, lookup_setKey_ne _ _ _ _ hk1]

lemma lookup_dictUpdate_mem (d e : Record) (k : String) (v : Val)
    (hnd : (e.map Prod.fst).Nodup) (h : List.lookup k e = some v) :
    List.lookup k (dictUpdate d e) = some v := by
  induction e generalizing d with
  | nil => simp [List.lookup] at h
  | cons p rest ih =>
    obtain ⟨k1, v1⟩ := p
    simp only [List.map_cons, List.nodup_cons] at hnd
    obtain ⟨hk1notin, hndrest⟩ := hnd
    rw [List.lookup_cons] at h
    by_cases hk : k = k1
    · subst hk
      rw [beq_self_eq_true] at h
      simp only [Option.some.injEq] at h
      show List.lookup k (dictUpdate (setKey d k v1) rest) = some v
      rw [lookup_dictUpdate_not_mem _ _ _ hk1notin, lookup_setKey_self, h]
    · have hne : (k == k1) = false := beq_eq_false_iff_ne.mpr hk
      rw [hne] at h
      show List.lookup k (dictUpdate (setKey d k1 v1) rest) = some v
      exact ih (setKey d k1 v1) hndrest h

/-- C10: a successful detail extraction is merged into the item by plain dict
update: every key present in the detail mapping (whose keys are unique, as a
Python dict's are) ends up with the detail's value — including core fields
like `title`/`price` when an attribute-table header such as "Title" or
"Price" normalises onto them — and every key absent from the detail mapping
keeps its original value. -/
theorem c10_update_overwrite (it extra : Record)
    (hnd : (extra.map Prod.fst).Nodup) :
    (∀ k v, List.lookup k extra = some v → List.lookup k (dictUpdate it extra) = some v) ∧
    (∀ k, k ∉ extra.map Prod.fst → List.lookup k (dictUpdate it extra) = List.lookup k it) ∧
    normKey "Title" = "title" ∧
    normKey "Price" = "price" ∧
    buildDetailsTable [(some "Title", some "Detail title")] = [("title", .vs "Detail title")] := by
  refine ⟨?_, ?_, by decide, by decide, by decide⟩
  · intro k v h; exact lookup_dictUpdate_mem it extra k v hnd h
  · intro k h; exact lookup_dictUpdate_not_mem it extra k h

/-- C10 witness: the overwrite and frame parts applied to a concrete item
and detail mapping. -/
theorem c10_witness :
    List.lookup "title" (dictUpdate
      [("title", Val.vs "Listing title"), ("price", Val.vnone)]
      [("title", Val.vs "Detail title"), ("upc", Val.vs "abc")]) = some (Val.vs "Detail title") ∧
    List.lookup "price" (dictUpdate
      [("title", Val.vs "Listing title"), ("price", Val.vnone)]
      [("title", Val.vs "Detail title"), ("upc", Val.vs "abc")]) = some Val.vnone := by
  constructor
  · exact (c10_update_overwrite _ _ (by decide)).1 "title" _ (by decide)
  · exact ((c10_update_overwrite _ _ (by decide)).2.1 "price" (by decide)).trans (by decide)

/-! ## Deduplication lemmas (Result Assembler) -/

lemma dedupGo_mem (l : List Record) : ∀ seen r, r ∈ dedupGo seen l →
    r ∈ l ∧ dedupKey r ∉ seen := by
  induction l with
  | nil => intro seen r h; simp [dedupGo] at h
  | cons x xs ih =>
    intro seen r h
    rw [dedupGo] at h
    split at h
    · have := ih seen r h
      exact ⟨List.mem_cons_of_mem x this.1, this.2⟩
    · rename_i hx
      rcases List.mem_cons.mp h with rfl | hr
      · exact ⟨List.mem_cons_self _ _, hx⟩
      · have := ih _ r hr
        refine ⟨List.mem_cons_of_mem x this.1, ?_⟩
        intro hs
        exact this.2 (List.mem_cons_of_mem _ hs)

lemma dedupGo_find (l : List Record) : ∀ seen r, r ∈ dedupGo seen l →
    l.find? (fun x => decide (dedupKey x = dedupKey r)) = some r := by
  induction l with
  | nil => intro seen r h; simp [dedupGo] at h
  | cons x xs ih =>
    intro seen r h
    rw [dedupGo] at h
    split at h
    · rename_i hx
      have hmem := dedupGo_mem xs seen r h
      have hne : dedupKey x ≠ dedupKey r := fun he => hmem.2 (he ▸ hx)
      rw [List.find?_cons, decide_eq_false hne]
      exact ih seen r h
    · rename_i hx
      rcases List.mem_cons.mp h with rfl | hr
      · rw [List.find?_cons, decide_eq_true rfl]
      · have hmem := dedupGo_mem xs _ r hr
        have hne : dedupKey x ≠ dedupKey r := by
          intro he
          exact hmem.2 (he ▸ List.mem_cons_self _ _)
        rw [List.find?_cons, decide_eq_false hne]
        exact ih _ r hr

lemma dedupGo_keys_nodup (l : List Record) : ∀ seen, ((dedupGo seen l).map dedupKey).Nodup := by
  induction l with
  | nil => intro seen; simp [dedupGo]
  | cons x xs ih =>
    intro seen
    rw [dedupGo]
    split
    · exact ih seen
    · simp only [List.map_cons, List.nodup_cons]
      refine ⟨?_, ih _⟩
      intro hmem
      rw [List.mem_map] at hmem
      obtain ⟨r, hr, hkey⟩ := hmem
      have := dedupGo_mem xs _ r hr
      exact this.2 (hkey ▸ List.mem_cons_self _ _)

lemma dedupGo_covers (l : List Record) : ∀ seen x, x ∈ l →
    dedupKey x ∈ seen ∨ ∃ r ∈ dedupGo seen l, dedupKey r = dedupKey x := by
  induction l with
  | nil => intro seen x h; simp at h
  | cons y ys ih =>
    intro seen x h
    rw [dedupGo]
    rcases List.mem_cons.mp h with rfl | hx
    · split
      · rename_i hy
        exact Or.inl hy
      · exact Or.inr ⟨_, List.mem_cons_self _ _, rfl⟩
    · split
      · exact ih seen x hx
      · rcases ih (dedupKey y :: seen) x hx with hmem | ⟨r, hr, hk⟩
        · rcases List.mem_cons.mp hmem with he | hs
          · exact Or.inr ⟨y, List.mem_cons_self _ _, he.symm⟩
          · exact Or.inl hs
        · exact Or.inr ⟨r, List.mem_cons_of_mem _ hr, hk⟩

/-- C4: the Assembler's deduplication output has pairwise distinct
`product_url` keys; every surviving record is the first record of the input
with its key (first-seen-wins); and every input key has a survivor. -/
theorem c4_dedup_first_seen (rows : List Record) :
    ((dedupByUrl rows).map dedupKey).Nodup ∧
    (∀ r ∈ dedupByUrl rows,
      rows.find? (fun x => decide (dedupKey x = dedupKey r)) = some r) ∧
    (∀ x ∈ rows, ∃ r ∈ dedupByUrl rows, dedupKey r = dedupKey x) := by
  refine ⟨dedupGo_keys_nodup rows [], ?_, ?_⟩
  · intro r hr
    exact dedupGo_find rows [] r hr
  · intro x hx
    rcases dedupGo_covers rows [] x hx with h | h
    · simp at h
    · exact h

/-- Concrete rows for the C4 witness: `rowB` duplicates `rowA`'s URL. -/
def rowA : Record := [("title", Val.vs "A"), ("product_url", Val.vs "u1")]
def rowB : Record := [("title", Val.vs "B"), ("product_url", Val.vs "u1")]
def rowC : Record := [("title", Val.vs "C"), ("product_url", Val.vs "u2")]

/-- C4 witness: the first-seen-wins property applied to a concrete row list
with a duplicate URL. -/
theorem c4_witness :
    [rowA, rowB, rowC].find?
      (fun x => decide (dedupKey x = dedupKey rowA)) = some rowA ∧
    ((dedupByUrl [rowA, rowB, rowC]).map dedupKey).Nodup :=
  ⟨(c4_dedup_first_seen [rowA, rowB, rowC]).2.1 rowA (by decide),
   (c4_dedup_first_seen [rowA, rowB, rowC]).1⟩

/-! ## Fetcher retry-loop lemmas (C1, C8) -/

lemma get_soupGo_const4xx (c : Nat) (body : String)
    (hc4 : 400 ≤ c) (hc5 : c < 500) (h429 : c ≠ 429) :
    ∀ rem attempt last sleeps,
      get_soupGo (fun _ => .status c body) rem attempt last sleeps =
        ⟨.exhausted (if rem = 0 then last else some (.httpStatus c)),
         attempt + rem,
         sleeps ++ (List.range' attempt rem).map backoffDuration⟩ := by
  intro rem
  induction rem with
  | zero =>
    intro attempt last sleeps
    simp [get_soupGo]
  | succ n ih =>
    intro attempt last sleeps
    have hnr : ¬(c = 429 ∨ (500 ≤ c ∧ c < 600)) := by omega
    have hra : 400 ≤ c ∧ c < 600 := ⟨hc4, by omega⟩
    have step : get_soupGo (fun _ => .status c body) (n + 1) attempt last sleeps =
        get_soupGo (fun _ => .status c body) n (attempt + 1) (some (.httpStatus c))
          (sleeps ++ [backoffDuration attempt]) := by
      simp only [get_soupGo]
      rw [if_neg hnr, if_pos hra]
    rw [step, ih]
    simp only [FetchTrace.mk.injEq]
    refine ⟨by rw [ite_self, if_neg (Nat.succ_ne_zero n)], by omega, ?_⟩
    rw [List.range'_succ]
    simp [List.append_assoc]

/-- C1 (amended): a 4xx status other than 429 is NOT failed fast: each such
response is caught by the same retry loop, which records the HTTP error,
sleeps the backoff, and retries; after `max_retries` attempts `get_soup`
raises carrying the last HTTP error. -/
theorem c1_4xx_retried (c : Nat) (body : String) (n : Nat)
    (hc4 : 400 ≤ c) (hc5 : c < 500) (h429 : c ≠ 429) (hn : 1 ≤ n) :
    (get_soup (fun _ => .status c body) n).result = .exhausted (some (.httpStatus c)) ∧
    (get_soup (fun _ => .status c body) n).attempts = n ∧
    (get_soup (fun _ => .status c body) n).sleeps = (List.range' 0 n).map backoffDuration := by
  unfold get_soup
  rw [get_soupGo_const4xx c body hc4 hc5 h429 n 0 none []]
  refine ⟨?_, by simp, by simp⟩
  rw [if_neg (by omega : ¬ n = 0)]

/-- C1 counterexample: on a URL answering 404 on every attempt with
`max_retries = 3`, `get_soup` sleeps three times (1s, 2s, 4s) and issues
three attempts before raising — contradicting “raises immediately, without
sleeping or performing any further retry attempts”. -/
theorem c1_counterexample :
    (get_soup (fun _ => .status 404 "not found") 3).sleeps = [1, 2, 4] ∧
    (get_soup (fun _ => .status 404 "not found") 3).attempts = 3 ∧
    (get_soup (fun _ => .status 404 "not found") 3).result =
      .exhausted (some (.httpStatus 404)) ∧
    (get_soup (fun _ => .status 404 "not found") 3).sleeps ≠ [] :=
  ⟨by decide, by decide, by decide, by decide⟩

/-- C1 witness: the amended theorem applied at a concrete 404 run. -/
theorem c1_witness :
    (get_soup (fun _ => .status 404 "nf") 3).result = .exhausted (some (.httpStatus 404)) :=
  (c1_4xx_retried 404 "nf" 3 (by omega) (by omega) (by omega) (by omega)).1

lemma get_soupGo_allFail (responses : Nat → AttemptOutcome) :
    ∀ rem attempt last sleeps,
      (∀ a, attempt ≤ a → a < attempt + rem → attemptFails (responses a) = true) →
      (get_soupGo responses rem attempt last sleeps).result =
        .exhausted (foldErr responses attempt rem last) ∧
      (get_soupGo responses rem attempt last sleeps).attempts = attempt + rem := by
  intro rem
  induction rem with
  | zero =>
    intro attempt last sleeps _
    simp [get_soupGo, foldErr]
  | succ n ih =>
    intro attempt last sleeps hfail
    have hthis := hfail attempt (le_refl _) (by omega)
    have hfold : foldErr responses attempt (n + 1) last =
        foldErr responses (attempt + 1) n (stepErr last (responses attempt)) := by
      unfold foldErr
      rw [List.range'_succ]
      simp [List.foldl_cons]
    rw [hfold]
    cases hr : responses attempt with
    | transportError e =>
      simp only [get_soupGo, hr]
      have hrec := ih (attempt + 1) (some (.transport e))
        (sleeps ++ [backoffDuration attempt])
        (fun a ha hb => hfail a (by omega) (by omega))
      have hstep : stepErr last (AttemptOutcome.transportError e) = some (.transport e) := rfl
      rw [hstep]
      exact ⟨hrec.1, by rw [hrec.2]; omega⟩
    | status code body =>
      rw [hr] at hthis
      simp only [attemptFails, decide_eq_true_eq] at hthis
      simp only [get_soupGo, hr]
      by_cases hretry : code = 429 ∨ (500 ≤ code ∧ code < 600)
      · rw [if_pos hretry]
        have hrec := ih (attempt + 1) last (sleeps ++ [backoffDuration attempt])
          (fun a ha hb => hfail a (by omega) (by omega))
        have hstep : stepErr last (AttemptOutcome.status code body) = last := by
          simp only [stepErr, recordedErr]
          rw [if_neg (by tauto)]
        rw [hstep]
        exact ⟨hrec.1, by rw [hrec.2]; omega⟩
      · have hraise : 400 ≤ code ∧ code < 600 := by
          rcases hthis with h1 | h2
          · exact absurd (Or.inl h1) hretry
          · exact h2
        rw [if_neg hretry, if_pos hraise]
        have hrec := ih (attempt + 1) (some (.httpStatus code))
          (sleeps ++ [backoffDuration attempt])
          (fun a ha hb => hfail a (by omega) (by omega))
        have hstep : stepErr last (AttemptOutcome.status code body) = some (.httpStatus code) := by
          simp only [stepErr, recordedErr]
          rw [if_pos ⟨hretry, hraise⟩]
        rw [hstep]
        exact ⟨hrec.1, by rw [hrec.2]; omega⟩

/-- C8 (amended): when every attempt fails, `get_soup` raises the
retries-exhausted error instead of returning a document, carrying the
`last_exc` fold over the attempts — which records transport exceptions and
non-retryable-status raises, but is NOT updated by retryable 429/5xx
responses (and so can be `None`). -/
theorem c8_retries_exhausted (responses : Nat → AttemptOutcome) (n : Nat)
    (h : ∀ a, a < n → attemptFails (responses a) = true) :
    (get_soup responses n).result = .exhausted (foldErr responses 0 n none) ∧
    (get_soup responses n).attempts = n ∧
    ∀ b, (get_soup responses n).result ≠ .doc b := by
  have hmain := get_soupGo_allFail responses n 0 none [] (fun a ha hb => h a (by omega))
  unfold get_soup
  refine ⟨hmain.1, by rw [hmain.2]; omega, ?_⟩
  intro b hb
  rw [hmain.1] at hb
  exact FetchResult.noConfusion hb

/-- C8 counterexample: when all three attempts fail with HTTP 500, the
raised error carries `None`, not the last underlying HTTP error. -/
theorem c8_counterexample :
    (get_soup (fun _ => .status 500 "server error") 3).result = .exhausted none ∧
    (get_soup (fun _ => .status 500 "server error") 3).attempts = 3 ∧
    FetchResult.exhausted (none : Option FetchErr) ≠
      .exhausted (some (.httpStatus 500)) :=
  ⟨by decide, by decide, by decide⟩

/-- A failing-attempt oracle for the C8 witness: transport error, then 500,
then 404. -/
def mixedResp : Nat → AttemptOutcome
  | 0 => .transportError "connection reset"
  | 1 => .status 500 "server error"
  | _ => .status 404 "not found"

/-- C8 witness: the amended theorem applied at a concrete all-failure run;
the carried error there is the 404 of the final attempt. -/
theorem c8_witness :
    (get_soup mixedResp 3).result =
      FetchResult.exhausted (foldErr mixedResp 0 3 none) ∧
    foldErr mixedResp 0 3 none = some (.httpStatus 404) :=
  ⟨(c8_retries_exhausted mixedResp 3 (by decide)).1, by decide⟩

/-! ## Crawl-loop lemmas (C2, C3, C5, C9) -/

lemma scrapeLoop_pages_le (site : Site) (uj : String → String → String) (wd : Bool)
    (N : Int) (hN : 0 < N) :
    ∀ fuel url (page : Nat) rows, (page : Int) < N →
      ((scrapeLoop site uj wd (some N) fuel url page rows).pagesFetched : Int) ≤ N := by
  intro fuel
  induction fuel with
  | zero =>
    intro url page rows h
    cases url with
    | none => simp only [scrapeLoop]; omega
    | some u => simp only [scrapeLoop]; omega
  | succ f ih =>
    intro url page rows h
    cases url with
    | none => simp only [scrapeLoop]; omega
    | some u =>
      rw [scrapeLoop]
      by_cases hhit : pythonLimitHit (some N) (page + 1) = true
      · rw [if_pos hhit]
        show ((page + 1 : Nat) : Int) ≤ N
        push_cast
        omega
      · rw [if_neg hhit]
        apply ih
        simp only [pythonLimitHit, Bool.and_eq_true, decide_eq_true_eq] at hhit
        push_neg at hhit
        push_cast
        by_cases hN0 : N = 0
        · omega
        · have := hhit hN0
          push_cast at this
          omega

lemma scrapeLoop_limit_one (site : Site) (uj : String → String → String) (wd : Bool) :
    ∀ fuel u, 1 ≤ fuel →
      scrapeLoop site uj wd (some 1) fuel (some u) 0 [] =
        ⟨processPage site uj wd u, 1⟩ := by
  intro fuel u hf
  obtain ⟨f, rfl⟩ : ∃ f, fuel = f + 1 := ⟨fuel - 1, by omega⟩
  rw [scrapeLoop]
  have hhit : pythonLimitHit (some 1) (0 + 1) = true := by decide
  rw [if_pos hhit]
  simp

/-- C3: with a positive page limit N, the loop's page counter never exceeds N
(for every fuel, i.e. however many pages the site could offer); and the limit
is checked only after a page completes, so a crawl with limit 1 returns
exactly the one fully processed first page with its items accumulated. -/
theorem c3_page_limit (site : Site) (uj : String → String → String) (wd : Bool)
    (N : Int) (hN : 0 < N) :
    (∀ fuel url (page : Nat) rows, (page : Int) < N →
        ((scrapeLoop site uj wd (some N) fuel url page rows).pagesFetched : Int) ≤ N) ∧
    (∀ fuel u, 1 ≤ fuel →
        scrapeLoop site uj wd (some 1) fuel (some u) 0 [] =
          ⟨processPage site uj wd u, 1⟩) :=
  ⟨scrapeLoop_pages_le site uj wd N hN, scrapeLoop_limit_one site uj wd⟩

/-- C5: when the current listing page has no `li.next a` element,
`find_next_page` yields no next URL, and the crawl loop — whatever
`max_pages` is, `None` included — processes exactly that one page from that
point: it appends the page's items and stops with one more page fetched. -/
theorem c5_no_next_terminates (site : Site) (uj : String → String → String) (wd : Bool)
    (mp : Option Int) (url : String) (fuel page : Nat) (rows : List Record)
    (hfuel : 1 ≤ fuel) (hnext : (site.soup url).nextHref = none) :
    find_next_page uj (site.soup url) url = none ∧
    scrapeLoop site uj wd mp fuel (some url) page rows =
      ⟨rows ++ processPage site uj wd url, page + 1⟩ := by
  have hfn : find_next_page uj (site.soup url) url = none := by
    rw [find_next_page, hnext]
    rfl
  refine ⟨hfn, ?_⟩
  obtain ⟨f, rfl⟩ : ∃ f, fuel = f + 1 := ⟨fuel - 1, by omega⟩
  rw [scrapeLoop]
  by_cases hhit : pythonLimitHit mp (page + 1) = true
  · rw [if_pos hhit]
  · rw [if_neg hhit, hfn, scrapeLoop]

lemma scrapeLoop_rows_extend (site : Site) (uj : String → String → String)
    (wd : Bool) (mp : Option Int) :
    ∀ fuel url page rows, ∃ tail,
      (scrapeLoop site uj wd mp fuel url page rows).rows = rows ++ tail := by
  intro fuel
  induction fuel with
  | zero =>
    intro url page rows
    cases url with
    | none => exact ⟨[], by simp [scrapeLoop]⟩
    | some u => exact ⟨[], by simp [scrapeLoop]⟩
  | succ f ih =>
    intro url page rows
    cases url with
    | none => exact ⟨[], by simp [scrapeLoop]⟩
    | some u =>
      rw [scrapeLoop]
      by_cases hhit : pythonLimitHit mp (page + 1) = true
      · rw [if_pos hhit]
        exact ⟨processPage site uj wd u, rfl⟩
      · rw [if_neg hhit]
        obtain ⟨t, ht⟩ := ih (find_next_page uj (site.soup u) u) (page + 1)
          (rows ++ processPage site uj wd u)
        exact ⟨processPage site uj wd u ++ t, by rw [ht, List.append_assoc]⟩

/-- C2: on a page whose item `i` fails detail extraction with message `e`,
the processed page keeps all `k` items (same length, every position `j`
determined by item `j` alone, so the other `k-1` items are unaffected by
`i`'s failure), item `i` becomes its record with `details_error = e`
attached, and the crawl appends the whole processed page and continues. -/
theorem c2_detail_failure_isolation (site : Site) (uj : String → String → String)
    (mp : Option Int) (url : String) (fuel page : Nat) (rows : List Record)
    (i : Nat) (it : Record) (e : String)
    (hfuel : 1 ≤ fuel)
    (hit : (pageItems site uj url)[i]? = some it)
    (herr : site.details (getStr it "product_url") = .error e) :
    (processPage site uj true url).length = (pageItems site uj url).length ∧
    (processPage site uj true url)[i]? = some (setKey it "details_error" (.vs e)) ∧
    List.lookup "details_error" (setKey it "details_error" (.vs e)) = some (.vs e) ∧
    (∀ (j : Nat) (jt : Record), (pageItems site uj url)[j]? = some jt →
        (processPage site uj true url)[j]? = some (applyDetails site.details jt)) ∧
    ∃ tail, (scrapeLoop site uj true mp fuel (some url) page rows).rows =
      rows ++ processPage site uj true url ++ tail := by
  have hpp : processPage site uj true url =
      (pageItems site uj url).map (applyDetails site.details) := by
    simp [processPage]
  refine ⟨?_, ?_, ?_, ?_, ?_⟩
  · rw [hpp, List.length_map]
  · rw [hpp, List.getElem?_map, hit]
    simp [applyDetails, herr]
  · exact lookup_setKey_self it "details_error" (.vs e)
  · intro j jt hj
    rw [hpp, List.getElem?_map, hj]
    rfl
  · obtain ⟨f, rfl⟩ : ∃ f, fuel = f + 1 := ⟨fuel - 1, by omega⟩
    rw [scrapeLoop]
    by_cases hhit : pythonLimitHit mp (page + 1) = true
    · rw [if_pos hhit]
      exact ⟨[], by simp⟩
    · rw [if_neg hhit]
      obtain ⟨t, ht⟩ := scrapeLoop_rows_extend site uj true mp f
        (find_next_page uj (site.soup url) url) (page + 1)
        (rows ++ processPage site uj true url)
      exact ⟨t, ht⟩

/-- C9: a crawl that accumulated zero records produces an empty DataFrame,
and `main` then takes the explicit no-data branch — an outcome distinct
from both file-writing actions, with no crash. -/
theorem c9_empty_result (site : Site) (uj : String → String → String) (wd : Bool)
    (mp : Option Int) (fuel : Nat) (start output : String)
    (h : (scrape site uj wd mp fuel start).rows = []) :
    scrapeDF site uj wd mp fuel start = [] ∧
    mainAfterScrape (scrapeDF site uj wd mp fuel start) output = .noData "No data collected." ∧
    ∀ p, mainAfterScrape (scrapeDF site uj wd mp fuel start) output ≠ .writeCsv p ∧
         mainAfterScrape (scrapeDF site uj wd mp fuel start) output ≠ .writeExcel p := by
  have hdf : scrapeDF site uj wd mp fuel start = [] := by
    simp [scrapeDF, h]
  refine ⟨hdf, ?_, ?_⟩
  · rw [hdf]
    rfl
  · intro p
    rw [hdf]
    exact ⟨fun hc => ExportAction.noConfusion hc, fun hc => ExportAction.noConfusion hc⟩

/-- A concrete urljoin stand-in for witnesses: hrefs are already absolute. -/
def ujW : String → String → String := fun _ href => href

def cardW1 : Card :=
  ⟨some "Book A", "Book A", "u1", none, some ["star-rating", "Three"], some "In stock"⟩

def cardW2 : Card :=
  ⟨some "Book B", "Book B", "u2", none, some ["star-rating", "One"], none⟩

/-- Witness site: two pages, detail extraction failing for product `u1`. -/
def siteW : Site :=
  ⟨fun u => if u = "p1" then ⟨[cardW1, cardW2], some "p2"⟩ else ⟨[cardW1], none⟩,
   fun u => if u = "u1" then .error "boom" else .ok [("category", .vs "Fiction")]⟩

/-- Witness site with an empty listing and no next link. -/
def siteEmpty : Site :=
  ⟨fun _ => ⟨[], none⟩, fun _ => .error "no details"⟩

def itW : Record := cardToRecord ujW "p1" cardW1

/-- C2 witness: the isolation theorem applied to a concrete two-item page
whose first item's detail extraction raises. -/
theorem c2_witness :
    (processPage siteW ujW true "p1").length = (pageItems siteW ujW "p1").length ∧
    (processPage siteW ujW true "p1")[0]? =
      some (setKey itW "details_error" (.vs "boom")) ∧
    List.lookup "details_error" (setKey itW "details_error" (.vs "boom")) =
      some (.vs "boom") ∧
    (∀ (j : Nat) (jt : Record), (pageItems siteW ujW "p1")[j]? = some jt →
        (processPage siteW ujW true "p1")[j]? = some (applyDetails siteW.details jt)) ∧
    ∃ tail, (scrapeLoop siteW ujW true none 3 (some "p1") 0 []).rows =
      [] ++ processPage siteW ujW true "p1" ++ tail :=
  c2_detail_failure_isolation siteW ujW none "p1" 3 0 [] 0 itW "boom"
    (by omega) (by rfl) (by rfl)

/-- C3 witness: the limit theorem applied to a concrete multi-page site with
limits 2 and 1. -/
theorem c3_witness :
    ((scrapeLoop siteW ujW false (some 2) 10 (some "p1") 0 []).pagesFetched : Int) ≤ 2 ∧
    scrapeLoop siteW ujW false (some 1) 4 (some "p1") 0 [] =
      ⟨processPage siteW ujW false "p1", 1⟩ :=
  ⟨(c3_page_limit siteW ujW false 2 (by omega)).1 10 (some "p1") 0 [] (by omega),
   (c3_page_limit siteW ujW false 1 (by omega)).2 4 "p1" (by omega)⟩

/-- C5 witness: the termination theorem applied to a concrete page without a
next link, starting from a mid-crawl state. -/
theorem c5_witness :
    find_next_page ujW (siteW.soup "p2") "p2" = none ∧
    scrapeLoop siteW ujW false none 2 (some "p2") 4 [] =
      ⟨[] ++ processPage siteW ujW false "p2", 5⟩ :=
  c5_no_next_terminates siteW ujW false none "p2" 2 4 [] (by omega) (by rfl)

/-- C9 witness: the empty-result theorem applied to a concrete empty site. -/
theorem c9_witness :
    mainAfterScrape (scrapeDF siteEmpty ujW false none 5 "start") "books.xlsx" =
      .noData "No data collected." :=
  (c9_empty_result siteEmpty ujW false none 5 "start" "books.xlsx" (by decide)).2.1

end Books
